import Mathlib

/-!
# go-itunes: the content classifier, the transport wrapper and the search options

A shallow embedding of `itunes.go`.

* Go values of type `interface{}` that come out of `json.Unmarshal` are modelled by `JSONValue`.
* A Go `map[string]interface{}` is modelled by an association list in which the first binding
  of a key is the one the map holds.
* `mapstructure.Decode` (default configuration) is modelled field by field.  The structs of
  `itunes.go` carry `json:"..."` tags only, which mapstructure does not read, so each field is
  looked up under its Go field name; when that exact key is absent mapstructure ranges over the
  map and takes the first key that `strings.EqualFold` accepts.  Go ranges over a map in an
  unspecified order, so a decode has a list of possible outcomes, one per key that can come
  first.
* A nil slice is the empty list.
-/

namespace Itunes

/-! ## Values -/

/-- A Go `error` value.  `errorString` stands for the errors made by `fmt.Errorf`, `net/http` and
`io`; `mapstructure` for `*mapstructure.Error`, carrying the fields that could not be decoded. -/
inductive GoError
  | errorString (msg : String)
  | mapstructure (fields : List String)
  deriving DecidableEq, Repr

/-- What `json.Unmarshal` stores in an `interface{}`: nil, bool, float64, string,
`[]interface{}` or `map[string]interface{}`.  The float64 payload is never inspected by the
code; it is carried as an integer. -/
inductive JSONValue
  | null
  | bool (b : Bool)
  | number (f : Int)
  | string (s : String)
  | array (xs : List JSONValue)
  | object (kvs : List (String × JSONValue))

/-- The comparison `v == "lit"` of an `interface{}` with a string constant, as the `switch`
statements of `parseSearchResults` make it: true only for a dynamic string with that content. -/
def JSONValue.eqString : JSONValue → String → Bool
  | .string s, lit => s == lit
  | _, _ => false

/-- A `map[string]interface{}`. -/
abbrev Record := List (String × JSONValue)

/-- The index expression `m[k]` with the comma-ok form: the first binding of `k`. -/
def mapIndex : Record → String → Option JSONValue
  | [], _ => none
  | (k, v) :: rest, key => if k = key then some v else mapIndex rest key

/-- The keys of the map, each once. -/
def mapKeys : Record → List String
  | [] => []
  | (k, _) :: rest => if k ∈ mapKeys rest then mapKeys rest else k :: mapKeys rest

/-! ## strings.EqualFold -/

/-- The rune loop of `strings.EqualFold`.  `orbit sr tr` stands for the general case of the Go
code: iterating `unicode.SimpleFold` from `sr` reaches `tr` (the table is part of the Go
standard library and is a parameter here).  It is consulted only when the larger rune is not
ASCII. -/
def equalFoldRunes (orbit : Char → Char → Bool) : List Char → List Char → Bool
  | [], [] => true
  | [], _ :: _ => false
  | _ :: _, [] => false
  | sr0 :: s, tr0 :: t =>
    if tr0 = sr0 then equalFoldRunes orbit s t
    else
      let sr := if tr0.toNat < sr0.toNat then tr0 else sr0
      let tr := if tr0.toNat < sr0.toNat then sr0 else tr0
      if tr.toNat < 128 then
        if 65 ≤ sr.toNat ∧ sr.toNat ≤ 90 ∧ tr.toNat = sr.toNat + 97 - 65 then
          equalFoldRunes orbit s t
        else false
      else if orbit sr tr then equalFoldRunes orbit s t
      else false

/-- The function `strings.EqualFold(s, t)` on valid UTF-8 strings. -/
def EqualFold (orbit : Char → Char → Bool) (s t : String) : Bool :=
  equalFoldRunes orbit s.data t.data

/-- A fold table with no non-ASCII orbit, for evaluating ASCII-only inputs. -/
def asciiOrbit : Char → Char → Bool := fun _ _ => false

/-! ## Content types -/

/-- The struct `Software`.  The float64 fields are carried as integers; no code reads them. -/
structure Software where
  WrapperType : String
  Kind : String
  ArtistName : String
  ArtistID : Int
  TrackName : String
  TrackCensoredName : String
  TrackID : Int
  AverageUserRating : Int
  UserRatingCount : Int
  AverageUserRatingForCurrentVersion : Int
  UserRatingCountForCurrentVersion : Int
  Version : String
  deriving DecidableEq, Repr

/-- The struct `Podcast`. -/
structure Podcast where
  WrapperType : String
  Kind : String
  FeedURL : String
  deriving DecidableEq, Repr

/-- The struct `Song`. -/
structure Song where
  WrapperType : String
  Kind : String
  deriving DecidableEq, Repr

/-- The struct `Artist`. -/
structure Artist where
  WrapperType : String
  ArtistName : String
  deriving DecidableEq, Repr

/-- The interface `Content`: the four pointer types that implement it. -/
inductive Content
  | software (o : Software)
  | podcast (o : Podcast)
  | song (o : Song)
  | artist (o : Artist)
  deriving DecidableEq, Repr

/-- The method `(*Software).ContentType`. -/
def Software.ContentType (o : Software) : String := o.WrapperType

/-- The method `(*Podcast).ContentType`. -/
def Podcast.ContentType (o : Podcast) : String := o.WrapperType

/-- The method `(*Song).ContentType`. -/
def Song.ContentType (o : Song) : String := o.WrapperType

/-- The method `(*Artist).ContentType`. -/
def Artist.ContentType (o : Artist) : String := o.WrapperType

/-- The interface call `c.ContentType()`. -/
def Content.ContentType : Content → String
  | .software o => o.ContentType
  | .podcast o => o.ContentType
  | .song o => o.ContentType
  | .artist o => o.ContentType

/-- The method `(*Software).ContentKind`, whose body is `return o.ContentKind()`.  `fuel` bounds
the depth of the call stack; `none` means the call has not returned within it. -/
def Software.ContentKind : Nat → Software → Option String
  | 0, _ => none
  | fuel + 1, o => Software.ContentKind fuel o

/-- The method `(*Podcast).ContentKind`, whose body is `return o.ContentKind()`. -/
def Podcast.ContentKind : Nat → Podcast → Option String
  | 0, _ => none
  | fuel + 1, o => Podcast.ContentKind fuel o

/-- The method `(*Song).ContentKind`, whose body is `return o.ContentKind()`. -/
def Song.ContentKind : Nat → Song → Option String
  | 0, _ => none
  | fuel + 1, o => Song.ContentKind fuel o

/-- The method `(*Artist).ContentKind`, whose body is `return ""`. -/
def Artist.ContentKind (_o : Artist) : String := ""

/-- The interface call `c.ContentKind()` with a bound on the call depth. -/
def Content.ContentKind (fuel : Nat) : Content → Option String
  | .software o => o.ContentKind fuel
  | .podcast o => o.ContentKind fuel
  | .song o => o.ContentKind fuel
  | .artist o => some o.ContentKind

/-! ## Search options -/

/-- The struct `SearchOptions`. -/
structure SearchOptions where
  Term : String
  Country : String
  Media : String
  Entity : String
  Attribute : String
  Limit : Int
  Language : String
  Explicit : Bool
  deriving DecidableEq, Repr

/-- The option `Country(country)`: the returned closure, as a function from the options it is
given to the options it leaves and the error it returns. -/
def Country (country : String) : SearchOptions → SearchOptions × Option GoError :=
  fun so => ({ so with Country := country }, none)

/-- The option `Media(media)`. -/
def Media (media : String) : SearchOptions → SearchOptions × Option GoError :=
  fun so => ({ so with Media := media }, none)

/-- The option `Entity(entity)`. -/
def Entity (entity : String) : SearchOptions → SearchOptions × Option GoError :=
  fun so => ({ so with Entity := entity }, none)

/-- The option `Attribute(attribute)` (the parameter is renamed: `attribute` is reserved). -/
def Attribute (attr : String) : SearchOptions → SearchOptions × Option GoError :=
  fun so => ({ so with Attribute := attr }, none)

/-- The option `Explicit(explicit)`. -/
def Explicit (explicit : Bool) : SearchOptions → SearchOptions × Option GoError :=
  fun so => ({ so with Explicit := explicit }, none)

/-- The option `Limit(limit)`. -/
def Limit (limit : Int) : SearchOptions → SearchOptions × Option GoError :=
  fun so => ({ so with Limit := limit }, none)

/-- The option `Language(language)`. -/
def Language (language : String) : SearchOptions → SearchOptions × Option GoError :=
  fun so => ({ so with Language := language }, none)

/-! ## mapstructure.Decode -/

/-- The raw values that `decodeStruct` can find for the struct field `fieldName`: the value under
the exact key when the map has it (`dataVal.MapIndex(rawMapKey)`), otherwise the value of any
key that `strings.EqualFold(mK, fieldName)` accepts, since the `range` over the keys may meet
any of them first.  The empty list means no key matches and the field is left alone. -/
def fieldCandidates (orbit : Char → Char → Bool) (data : Record) (fieldName : String) :
    List JSONValue :=
  match mapIndex data fieldName with
  | some v => [v]
  | none =>
    ((mapKeys data).filter (fun mK => EqualFold orbit mK fieldName)).filterMap (mapIndex data)

/-- The methods `decode` and `decodeString` on a field of type string that holds `val`, without
`WeaklyTypedInput`: nil data sets nothing, a string is stored, any other kind is the error
"expected type 'string', got unconvertible type", recorded here by the name of the field. -/
def decodeString (name : String) (data : JSONValue) (val : String) : Except String String :=
  match data with
  | .null => .ok val
  | .string s => .ok s
  | _ => .error name

/-- The possible outcomes of decoding one string field of a freshly declared struct. -/
def decodeField (orbit : Char → Char → Bool) (data : Record) (fieldName : String) :
    List (Except String String) :=
  match fieldCandidates orbit data fieldName with
  | [] => [.ok ""]
  | raws => raws.map (fun raw => decodeString fieldName raw "")

/-- The names recorded by the failed fields, in the order of the struct declaration. -/
def fieldErrors : List (Except String String) → List String
  | [] => []
  | .error name :: rest => name :: fieldErrors rest
  | .ok _ :: rest => fieldErrors rest

/-- The possible outcomes of `mapstructure.Decode(object, &song)`. -/
def decodeSong (orbit : Char → Char → Bool) (object : Record) : List (Except GoError Song) :=
  (decodeField orbit object "WrapperType").flatMap fun w =>
  (decodeField orbit object "Kind").map fun k =>
    match w, k with
    | .ok wv, .ok kv => .ok { WrapperType := wv, Kind := kv }
    | _, _ => .error (.mapstructure (fieldErrors [w, k]))

/-- The possible outcomes of `mapstructure.Decode(object, &podcast)`. -/
def decodePodcast (orbit : Char → Char → Bool) (object : Record) :
    List (Except GoError Podcast) :=
  (decodeField orbit object "WrapperType").flatMap fun w =>
  (decodeField orbit object "Kind").flatMap fun k =>
  (decodeField orbit object "FeedURL").map fun f =>
    match w, k, f with
    | .ok wv, .ok kv, .ok fv => .ok { WrapperType := wv, Kind := kv, FeedURL := fv }
    | _, _, _ => .error (.mapstructure (fieldErrors [w, k, f]))

/-- The possible outcomes of `mapstructure.Decode(object, &artist)`. -/
def decodeArtist (orbit : Char → Char → Bool) (object : Record) :
    List (Except GoError Artist) :=
  (decodeField orbit object "WrapperType").flatMap fun w =>
  (decodeField orbit object "ArtistName").map fun a =>
    match w, a with
    | .ok wv, .ok av => .ok { WrapperType := wv, ArtistName := av }
    | _, _ => .error (.mapstructure (fieldErrors [w, a]))

/-! ## parseSearchResults -/

/-- The struct `searchResults`. -/
structure searchResults where
  ResultCount : Int
  Results : List Record

/-- What one pass through the body of the `for` loop does: nothing, an `append` to `content`,
or `return nil, err`. -/
inductive Step
  | skip
  | append (c : Content)
  | fail (err : GoError)
  deriving DecidableEq, Repr

/-- The outcome of a `Decode` followed by its `if err != nil` and the `append`. -/
def stepOf {α : Type} (wrap : α → Content) : Except GoError α → Step
  | .ok v => .append (wrap v)
  | .error err => .fail err

/-- The body of the `for` loop of `parseSearchResults` on one record: the two nested switches,
with the possible outcomes of the `Decode` that is reached. -/
def loopBody (orbit : Char → Char → Bool) (object : Record) : List Step :=
  match mapIndex object "wrapperType" with
  | none => [.skip]
  | some wrapperType =>
    if wrapperType.eqString "track" then
      match mapIndex object "kind" with
      | none => [.skip]
      | some kind =>
        if kind.eqString "song" then (decodeSong orbit object).map (stepOf Content.song)
        else if kind.eqString "podcast" then
          (decodePodcast orbit object).map (stepOf Content.podcast)
        else [.skip]
    else if wrapperType.eqString "collection" then [.skip]
    else if wrapperType.eqString "artist" then
      (decodeArtist orbit object).map (stepOf Content.artist)
    else [.skip]

/-- The `for` loop of `parseSearchResults` from the records still to visit and the slice
`content` built so far: the possible pairs the function returns. -/
def parseLoop (orbit : Char → Char → Bool) :
    List Record → List Content → List (List Content × Option GoError)
  | [], content => [(content, none)]
  | object :: rest, content =>
    (loopBody orbit object).flatMap fun step =>
      match step with
      | .skip => parseLoop orbit rest content
      | .append c => parseLoop orbit rest (content ++ [c])
      | .fail err => [([], some err)]

/-- The function `parseSearchResults`: the possible pairs `(content, err)` it returns. -/
def parseSearchResults (orbit : Char → Char → Bool) (results : searchResults) :
    List (List Content × Option GoError) :=
  parseLoop orbit results.Results []

/-! ## queryServer -/

/-- The part of `*http.Response` that `queryServer` reads: the status code, the status line and
what `ioutil.ReadAll(res.Body)` returns. -/
structure Response where
  StatusCode : Int
  Status : String
  ReadAll : List Nat × Option GoError

/-- The network as `queryServer` meets it: `http.NewRequest(http.MethodGet, url, nil)` fails or
gives a request, and `client.Do(req)` fails or gives a response. -/
structure Network where
  NewRequest : String → Option GoError
  Do : String → Except GoError Response

/-- The function `queryServer`.  After `res, err := client.Do(req)` succeeded the variable
`err` is nil, and it is `err` that the branch `readErr != nil` returns. -/
def queryServer (net : Network) (url : String) : List Nat × Option GoError :=
  match net.NewRequest url with
  | some err => ([], some err)
  | none =>
    match net.Do url with
    | .error err => ([], some err)
    | .ok res =>
      let err : Option GoError := none
      if res.StatusCode ≠ 200 then
        ([], some (.errorString ("Invalid status <" ++ res.Status ++ ">")))
      else
        match res.ReadAll with
        | (_, some _) => ([], err)
        | (body, none) => (body, none)

/-! ## Predicates read off the code -/

/-- The conditions under which the switches of `parseSearchResults` reach a `Decode`:
`wrapperType` is "track" and `kind` is "song" or "podcast", or `wrapperType` is "artist". -/
def matchesDiscriminator (object : Record) : Bool :=
  match mapIndex object "wrapperType" with
  | none => false
  | some wrapperType =>
    if wrapperType.eqString "track" then
      match mapIndex object "kind" with
      | none => false
      | some kind => kind.eqString "song" || kind.eqString "podcast"
    else if wrapperType.eqString "collection" then false
    else wrapperType.eqString "artist"

/-- The key `key` is the only key of the map that `decodeStruct` can take for the field
`fieldName`: every key that `strings.EqualFold` matches with the field name is `key`. -/
def soleKey (orbit : Char → Char → Bool) (data : Record) (fieldName key : String) : Prop :=
  ∀ mK ∈ mapKeys data, EqualFold orbit mK fieldName = true → mK = key

instance (orbit : Char → Char → Bool) (data : Record) (fieldName key : String) :
    Decidable (soleKey orbit data fieldName key) := by
  unfold soleKey; infer_instance

/-- The map holds a string under the key `mK`. -/
def holdsString (data : Record) (mK : String) : Bool :=
  match mapIndex data mK with
  | some (JSONValue.string _) => true
  | _ => false

/-- Every key of the map that `decodeStruct` can take for the field `fieldName` holds a
string. -/
def stringTyped (orbit : Char → Char → Bool) (data : Record) (fieldName : String) : Prop :=
  ∀ mK ∈ mapKeys data, EqualFold orbit mK fieldName = true → holdsString data mK = true

instance (orbit : Char → Char → Bool) (data : Record) (fieldName : String) :
    Decidable (stringTyped orbit data fieldName) := by
  unfold stringTyped; infer_instance

/-- No key of the map can be taken for the field `fieldName`. -/
def noKey (orbit : Char → Char → Bool) (data : Record) (fieldName : String) : Prop :=
  ∀ mK ∈ mapKeys data, EqualFold orbit mK fieldName = false

instance (orbit : Char → Char → Bool) (data : Record) (fieldName : String) :
    Decidable (noKey orbit data fieldName) := by
  unfold noKey; infer_instance

/-! ## Concrete inputs -/

/-- The record of a single-podcast envelope as `Test_Lookup` expects it from the lookup of the
id 528458508. -/
def lookupRecord : Record :=
  [("wrapperType", .string "track"), ("kind", .string "podcast"),
   ("collectionId", .number 528458508), ("trackId", .number 528458508),
   ("artistName", .string "Daring Fireball / John Gruber"),
   ("collectionName", .string "The Talk Show With John Gruber"),
   ("feedUrl", .string "https://daringfireball.net/thetalkshow/rss"),
   ("genres", .array [.string "Technology", .string "Podcasts"])]

/-- The envelope of `Test_Lookup`. -/
def lookupEnvelope : searchResults := { ResultCount := 1, Results := [lookupRecord] }

/-- A track/podcast record that has a key `FeedURL` next to `feedUrl`. -/
def feedShadowRecord : Record :=
  [("wrapperType", .string "track"), ("kind", .string "podcast"),
   ("feedUrl", .string "a"), ("FeedURL", .string "b")]

/-- A track/podcast record without `feedUrl` that has a key `FEEDURL`. -/
def feedFoldedRecord : Record :=
  [("wrapperType", .string "track"), ("kind", .string "podcast"), ("FEEDURL", .string "b")]

/-- An envelope of an artist, a collection, a song, a record of an unknown wrapper type and a
podcast. -/
def mixedEnvelope : searchResults :=
  { ResultCount := 5,
    Results :=
      [[("wrapperType", .string "artist"), ("artistName", .string "Jack Johnson")],
       [("wrapperType", .string "collection"), ("collectionName", .string "In Between Dreams")],
       [("wrapperType", .string "track"), ("kind", .string "song"),
        ("trackName", .string "Better Together")],
       [("wrapperType", .string "audiobook")],
       [("wrapperType", .string "track"), ("kind", .string "podcast"),
        ("feedUrl", .string "https://example.org/rss")]] }

/-- What `parseSearchResults` returns on `mixedEnvelope`. -/
def mixedContent : List Content × Option GoError :=
  ([.artist { WrapperType := "artist", ArtistName := "Jack Johnson" },
    .song { WrapperType := "track", Kind := "song" },
    .podcast { WrapperType := "track", Kind := "podcast", FeedURL := "https://example.org/rss" }],
   none)

/-- A collection record that also carries the keys of a song. -/
def collectionRecord : Record :=
  [("wrapperType", .string "collection"), ("kind", .string "song"),
   ("artistName", .string "Jack Johnson")]

/-- A track/podcast record whose `feedUrl` is a number. -/
def numericFeedRecord : Record :=
  [("wrapperType", .string "track"), ("kind", .string "podcast"), ("feedUrl", .number 7)]

/-- An envelope in which a song and an artist surround `numericFeedRecord`. -/
def numericFeedEnvelope : searchResults :=
  { ResultCount := 3,
    Results :=
      [[("wrapperType", .string "track"), ("kind", .string "song")],
       numericFeedRecord,
       [("wrapperType", .string "artist"), ("artistName", .string "Jack Johnson")]] }

/-- An artist record that has a key `ArtistName` next to `artistName`. -/
def artistShadowRecord : Record :=
  [("wrapperType", .string "artist"), ("artistName", .string "a"),
   ("ArtistName", .string "b")]

/-- An artist record that has a numeric key `WrapperType` next to `wrapperType`. -/
def artistNumericTagRecord : Record :=
  [("wrapperType", .string "artist"), ("artistName", .string "a"), ("WrapperType", .number 3)]

/-- An artist record as the catalog sends it. -/
def artistRecord : Record :=
  [("wrapperType", .string "artist"), ("artistType", .string "Artist"),
   ("artistName", .string "Jack Johnson"), ("artistId", .number 909253)]

/-- A track/song record that has a key `WrapperType` next to `wrapperType`. -/
def retaggedSongRecord : Record :=
  [("wrapperType", .string "track"), ("kind", .string "song"),
   ("WrapperType", .string "artist")]

/-- An envelope whose `resultCount` is 0 and whose `results` holds one artist. -/
def miscountedEnvelope : searchResults :=
  { ResultCount := 0, Results := [artistRecord] }

/-- A network on which the request is sent, the status is 200 and the read of the body fails
after two bytes. -/
def readFailureNetwork : Network :=
  { NewRequest := fun _ => none,
    Do := fun _ => .ok
      { StatusCode := 200, Status := "200 OK",
        ReadAll := ([123, 34], some (.errorString "unexpected EOF")) } }

/-- A song value. -/
def someSong : Song := { WrapperType := "track", Kind := "song" }

/-! ## Lemmas on maps and EqualFold -/

theorem equalFoldRunes_self (orbit : Char → Char → Bool) (l : List Char) :
    equalFoldRunes orbit l l = true := by
  induction l with
  | nil => rfl
  | cons c l ih => simp [equalFoldRunes, ih]

theorem EqualFold_self (orbit : Char → Char → Bool) (s : String) :
    EqualFold orbit s s = true :=
  equalFoldRunes_self orbit s.data

theorem mem_mapKeys_iff (data : Record) (key : String) :
    key ∈ mapKeys data ↔ ∃ v, mapIndex data key = some v := by
  induction data with
  | nil => simp [mapKeys, mapIndex]
  | cons kv rest ih =>
    obtain ⟨k, v⟩ := kv
    by_cases hk : k = key
    · subst hk
      by_cases hm : k ∈ mapKeys rest <;> simp [mapKeys, mapIndex, hm]
    · by_cases hm : k ∈ mapKeys rest
      · simp [mapKeys, mapIndex, hm, hk, ih]
      · have hk2 : ¬ key = k := fun h => hk h.symm
        simp [mapKeys, mapIndex, hm, hk, hk2, ih]

theorem mapKeys_nodup (data : Record) : (mapKeys data).Nodup := by
  induction data with
  | nil => simp [mapKeys]
  | cons kv rest ih =>
    obtain ⟨k, v⟩ := kv
    by_cases hm : k ∈ mapKeys rest
    · simpa [mapKeys, hm] using ih
    · simpa [mapKeys, hm] using And.intro hm ih

/-- In a list without repetition, a filter whose only possible survivor is `a` keeps `[a]`. -/
theorem filter_eq_singleton {l : List String} (p : String → Bool) (a : String)
    (hnd : l.Nodup) (ha : a ∈ l) (hpa : p a = true) (hp : ∀ x ∈ l, p x = true → x = a) :
    l.filter p = [a] := by
  induction l with
  | nil => simp at ha
  | cons x l ih =>
    rw [List.nodup_cons] at hnd
    by_cases hx : x = a
    · subst hx
      have hnone : l.filter p = [] := by
        rw [List.filter_eq_nil_iff]
        intro y hy hpy
        have := hp y (List.mem_cons_of_mem _ hy) hpy
        subst this
        exact hnd.1 hy
      simp [List.filter_cons, hpa, hnone]
    · have hpx : p x = false := by
        by_contra h
        exact hx (hp x (List.mem_cons_self _ _) (by simpa using h))
      have ha2 : a ∈ l := by
        rcases List.mem_cons.mp ha with h | h
        · exact absurd h.symm hx
        · exact h
      simp [List.filter_cons, hpx, ih hnd.2 ha2 (fun y hy => hp y (List.mem_cons_of_mem _ hy))]

/-! ## Lemmas on the decoding of a field -/

theorem fieldCandidates_sole (orbit : Char → Char → Bool) (data : Record)
    (fieldName key : String) (v : JSONValue)
    (hsole : soleKey orbit data fieldName key) (hkey : mapIndex data key = some v)
    (hfold : EqualFold orbit key fieldName = true) :
    fieldCandidates orbit data fieldName = [v] := by
  have hmem : key ∈ mapKeys data := (mem_mapKeys_iff data key).2 ⟨v, hkey⟩
  unfold fieldCandidates
  cases hf : mapIndex data fieldName with
  | some w =>
    have hfm : fieldName ∈ mapKeys data := (mem_mapKeys_iff data fieldName).2 ⟨w, hf⟩
    have heq : fieldName = key := hsole fieldName hfm (EqualFold_self orbit fieldName)
    rw [heq] at hf
    rw [hkey] at hf
    cases hf
    rfl
  | none =>
    have hfil : (mapKeys data).filter (fun mK => EqualFold orbit mK fieldName) = [key] :=
      filter_eq_singleton _ key (mapKeys_nodup data) hmem hfold hsole
    simp [hfil, hkey]

theorem fieldCandidates_noKey (orbit : Char → Char → Bool) (data : Record)
    (fieldName : String) (hno : noKey orbit data fieldName) :
    fieldCandidates orbit data fieldName = [] := by
  unfold fieldCandidates
  cases hf : mapIndex data fieldName with
  | some w =>
    have hfm : fieldName ∈ mapKeys data := (mem_mapKeys_iff data fieldName).2 ⟨w, hf⟩
    have := hno fieldName hfm
    rw [EqualFold_self] at this
    cases this
  | none =>
    have hfil : (mapKeys data).filter (fun mK => EqualFold orbit mK fieldName) = [] := by
      rw [List.filter_eq_nil_iff]
      intro k hk
      simp [hno k hk]
    simp [hfil]

theorem mem_fieldCandidates (orbit : Char → Char → Bool) (data : Record)
    (fieldName : String) (raw : JSONValue) (h : raw ∈ fieldCandidates orbit data fieldName) :
    ∃ mK ∈ mapKeys data, EqualFold orbit mK fieldName = true ∧ mapIndex data mK = some raw := by
  unfold fieldCandidates at h
  cases hf : mapIndex data fieldName with
  | some w =>
    rw [hf] at h
    simp at h
    subst h
    exact ⟨fieldName, (mem_mapKeys_iff data fieldName).2 ⟨raw, hf⟩, EqualFold_self orbit fieldName, hf⟩
  | none =>
    rw [hf] at h
    simp only [List.mem_filterMap, List.mem_filter] at h
    obtain ⟨k, ⟨hk, hfold⟩, hv⟩ := h
    exact ⟨k, hk, hfold, hv⟩

theorem decodeField_ne_nil (orbit : Char → Char → Bool) (data : Record) (fieldName : String) :
    decodeField orbit data fieldName ≠ [] := by
  unfold decodeField
  cases h : fieldCandidates orbit data fieldName with
  | nil => simp
  | cons a l => simp

theorem mem_decodeField (orbit : Char → Char → Bool) (data : Record) (fieldName : String)
    (x : Except String String) (h : x ∈ decodeField orbit data fieldName) :
    (fieldCandidates orbit data fieldName = [] ∧ x = .ok "") ∨
      ∃ raw ∈ fieldCandidates orbit data fieldName, x = decodeString fieldName raw "" := by
  unfold decodeField at h
  cases hc : fieldCandidates orbit data fieldName with
  | nil =>
    rw [hc] at h
    simp at h
    exact Or.inl ⟨rfl, h⟩
  | cons a l =>
    rw [hc] at h
    simp only [List.mem_map] at h
    obtain ⟨raw, hraw, hx⟩ := h
    exact Or.inr ⟨raw, hraw, hx.symm⟩

theorem decodeField_sole_string (orbit : Char → Char → Bool) (data : Record)
    (fieldName key s : String)
    (hsole : soleKey orbit data fieldName key)
    (hkey : mapIndex data key = some (JSONValue.string s))
    (hfold : EqualFold orbit key fieldName = true) :
    decodeField orbit data fieldName = [.ok s] := by
  unfold decodeField
  rw [fieldCandidates_sole orbit data fieldName key _ hsole hkey hfold]
  rfl

theorem decodeField_noKey (orbit : Char → Char → Bool) (data : Record) (fieldName : String)
    (hno : noKey orbit data fieldName) :
    decodeField orbit data fieldName = [.ok ""] := by
  unfold decodeField
  rw [fieldCandidates_noKey orbit data fieldName hno]

theorem decodeField_stringTyped (orbit : Char → Char → Bool) (data : Record)
    (fieldName : String) (htyped : stringTyped orbit data fieldName)
    (x : Except String String) (h : x ∈ decodeField orbit data fieldName) :
    ∃ s, x = .ok s := by
  rcases mem_decodeField orbit data fieldName x h with ⟨_, hx⟩ | ⟨raw, hraw, hx⟩
  · exact ⟨"", hx⟩
  · obtain ⟨k, hk, hfold, hv⟩ := mem_fieldCandidates orbit data fieldName raw hraw
    have hs := htyped k hk hfold
    unfold holdsString at hs
    rw [hv] at hs
    cases raw <;> simp at hs
    exact ⟨_, hx⟩

/-! ## Lemmas on the loop -/

theorem eqString_iff (v : JSONValue) (lit : String) :
    v.eqString lit = true ↔ v = JSONValue.string lit := by
  cases v <;> simp [JSONValue.eqString]

theorem stepOf_ne_skip {α : Type} (wrap : α → Content) (x : Except GoError α) :
    stepOf wrap x ≠ Step.skip := by
  cases x <;> simp [stepOf]

theorem loopBody_of_not_matches (orbit : Char → Char → Bool) (object : Record)
    (h : matchesDiscriminator object = false) : loopBody orbit object = [Step.skip] := by
  unfold matchesDiscriminator at h
  unfold loopBody
  cases hw : mapIndex object "wrapperType" with
  | none => rfl
  | some wrapperType =>
    rw [hw] at h
    cases ht : wrapperType.eqString "track" with
    | true =>
      simp only [ht, if_true] at h ⊢
      cases hk : mapIndex object "kind" with
      | none => rfl
      | some kind =>
        rw [hk] at h
        simp only [Bool.or_eq_false_iff] at h
        simp [h.1, h.2]
    | false =>
      simp only [ht, Bool.false_eq_true, if_false] at h ⊢
      cases hc : wrapperType.eqString "collection" with
      | true => simp
      | false =>
        simp only [hc, Bool.false_eq_true, if_false] at h ⊢
        simp [h]

theorem mem_loopBody_cases (orbit : Char → Char → Bool) (object : Record) (step : Step)
    (hm : matchesDiscriminator object = true) (h : step ∈ loopBody orbit object) :
    (mapIndex object "wrapperType" = some (JSONValue.string "track") ∧
      mapIndex object "kind" = some (JSONValue.string "song") ∧
      ∃ x ∈ decodeSong orbit object, step = stepOf Content.song x) ∨
    (mapIndex object "wrapperType" = some (JSONValue.string "track") ∧
      mapIndex object "kind" = some (JSONValue.string "podcast") ∧
      ∃ x ∈ decodePodcast orbit object, step = stepOf Content.podcast x) ∨
    (mapIndex object "wrapperType" = some (JSONValue.string "artist") ∧
      ∃ x ∈ decodeArtist orbit object, step = stepOf Content.artist x) := by
  unfold matchesDiscriminator at hm
  unfold loopBody at h
  cases hw : mapIndex object "wrapperType" with
  | none => rw [hw] at hm; simp at hm
  | some wrapperType =>
    rw [hw] at hm h
    cases ht : wrapperType.eqString "track" with
    | true =>
      simp only [ht, if_true] at hm h
      have hwt := (eqString_iff wrapperType "track").1 ht
      subst hwt
      cases hk : mapIndex object "kind" with
      | none => rw [hk] at hm; simp at hm
      | some kind =>
        rw [hk] at hm h
        cases hs : kind.eqString "song" with
        | true =>
          simp only [hs, if_true, List.mem_map] at h
          have hkd := (eqString_iff kind "song").1 hs
          subst hkd
          obtain ⟨x, hx, hstep⟩ := h
          exact Or.inl ⟨rfl, rfl, x, hx, hstep.symm⟩
        | false =>
          simp only [hs, Bool.false_or] at hm
          simp only [hs, Bool.false_eq_true, if_false, hm, if_true, List.mem_map] at h
          have hkd := (eqString_iff kind "podcast").1 hm
          subst hkd
          obtain ⟨x, hx, hstep⟩ := h
          exact Or.inr (Or.inl ⟨rfl, rfl, x, hx, hstep.symm⟩)
    | false =>
      simp only [ht, Bool.false_eq_true, if_false] at hm h
      cases hc : wrapperType.eqString "collection" with
      | true => simp [hc] at hm
      | false =>
        simp only [hc, Bool.false_eq_true, if_false] at hm h
        simp only [hm, if_true, List.mem_map] at h
        have hwt := (eqString_iff wrapperType "artist").1 hm
        subst hwt
        obtain ⟨x, hx, hstep⟩ := h
        exact Or.inr (Or.inr ⟨rfl, x, hx, hstep.symm⟩)

theorem skip_not_mem_loopBody (orbit : Char → Char → Bool) (object : Record)
    (h : matchesDiscriminator object = true) : Step.skip ∉ loopBody orbit object := by
  intro hs
  rcases mem_loopBody_cases orbit object _ h hs with
    ⟨_, _, x, _, hx⟩ | ⟨_, _, x, _, hx⟩ | ⟨_, x, _, hx⟩ <;>
  exact stepOf_ne_skip _ x hx.symm

theorem matches_of_append_mem (orbit : Char → Char → Bool) (object : Record) (c : Content)
    (h : Step.append c ∈ loopBody orbit object) : matchesDiscriminator object = true := by
  by_contra hm
  rw [loopBody_of_not_matches orbit object (by simpa using hm)] at h
  simp at h

theorem not_matches_of_skip_mem (orbit : Char → Char → Bool) (object : Record)
    (h : Step.skip ∈ loopBody orbit object) : matchesDiscriminator object = false := by
  by_contra hm
  exact skip_not_mem_loopBody orbit object (by simpa using hm) h

theorem mem_parseLoop_cons (orbit : Char → Char → Bool) (object : Record) (rest : List Record)
    (content : List Content) (out : List Content × Option GoError) :
    out ∈ parseLoop orbit (object :: rest) content ↔
      (Step.skip ∈ loopBody orbit object ∧ out ∈ parseLoop orbit rest content) ∨
      (∃ c, Step.append c ∈ loopBody orbit object ∧
        out ∈ parseLoop orbit rest (content ++ [c])) ∨
      (∃ err, Step.fail err ∈ loopBody orbit object ∧ out = ([], some err)) := by
  simp only [parseLoop, List.mem_flatMap]
  constructor
  · rintro ⟨step, hstep, hout⟩
    cases step with
    | skip => exact Or.inl ⟨hstep, hout⟩
    | append c => exact Or.inr (Or.inl ⟨c, hstep, hout⟩)
    | fail err => exact Or.inr (Or.inr ⟨err, hstep, by simpa using hout⟩)
  · rintro (⟨hstep, hout⟩ | ⟨c, hstep, hout⟩ | ⟨err, hstep, hout⟩)
    · exact ⟨_, hstep, hout⟩
    · exact ⟨_, hstep, hout⟩
    · exact ⟨_, hstep, by simpa using hout⟩

/-- What the loop returns: without an error, `content` extended by one decoding for each record
that reaches a `Decode`, in the order of the records; with an error, the nil slice. -/
theorem parseLoop_spec (orbit : Char → Char → Bool) (records : List Record) :
    ∀ (content : List Content) (out : List Content × Option GoError),
      out ∈ parseLoop orbit records content →
      (out.2 = none → ∃ cs, out.1 = content ++ cs ∧
        List.Forall₂ (fun object c => Step.append c ∈ loopBody orbit object)
          (records.filter matchesDiscriminator) cs) ∧
      (out.2 ≠ none → out.1 = []) := by
  induction records with
  | nil =>
    intro content out h
    simp only [parseLoop, List.mem_singleton] at h
    subst h
    exact ⟨fun _ => ⟨[], by simp, by simp⟩, fun h => absurd rfl h⟩
  | cons object rest ih =>
    intro content out h
    rcases (mem_parseLoop_cons orbit object rest content out).1 h with
      ⟨hstep, hout⟩ | ⟨c, hstep, hout⟩ | ⟨err, _, hout⟩
    · have hm := not_matches_of_skip_mem orbit object hstep
      have := ih content out hout
      simpa [List.filter_cons, hm] using this
    · have hm := matches_of_append_mem orbit object c hstep
      obtain ⟨h1, h2⟩ := ih (content ++ [c]) out hout
      refine ⟨fun hnone => ?_, h2⟩
      obtain ⟨cs, hcs, hall⟩ := h1 hnone
      refine ⟨c :: cs, by simpa using hcs, ?_⟩
      simp only [List.filter_cons, hm, if_true]
      exact List.Forall₂.cons hstep hall
    · subst hout
      exact ⟨fun h => by simp at h, fun _ => rfl⟩

theorem decodeSong_ne_nil (orbit : Char → Char → Bool) (object : Record) :
    decodeSong orbit object ≠ [] := by
  have h1 := decodeField_ne_nil orbit object "WrapperType"
  have h2 := decodeField_ne_nil orbit object "Kind"
  unfold decodeSong
  cases hw : decodeField orbit object "WrapperType" with
  | nil => exact absurd hw h1
  | cons a l =>
    cases hk : decodeField orbit object "Kind" with
    | nil => exact absurd hk h2
    | cons b m => simp

theorem decodePodcast_ne_nil (orbit : Char → Char → Bool) (object : Record) :
    decodePodcast orbit object ≠ [] := by
  have h1 := decodeField_ne_nil orbit object "WrapperType"
  have h2 := decodeField_ne_nil orbit object "Kind"
  have h3 := decodeField_ne_nil orbit object "FeedURL"
  unfold decodePodcast
  cases hw : decodeField orbit object "WrapperType" with
  | nil => exact absurd hw h1
  | cons a l =>
    cases hk : decodeField orbit object "Kind" with
    | nil => exact absurd hk h2
    | cons b m =>
      cases hf : decodeField orbit object "FeedURL" with
      | nil => exact absurd hf h3
      | cons c n => simp

theorem decodeArtist_ne_nil (orbit : Char → Char → Bool) (object : Record) :
    decodeArtist orbit object ≠ [] := by
  have h1 := decodeField_ne_nil orbit object "WrapperType"
  have h2 := decodeField_ne_nil orbit object "ArtistName"
  unfold decodeArtist
  cases hw : decodeField orbit object "WrapperType" with
  | nil => exact absurd hw h1
  | cons a l =>
    cases hk : decodeField orbit object "ArtistName" with
    | nil => exact absurd hk h2
    | cons b m => simp

theorem loopBody_ne_nil (orbit : Char → Char → Bool) (object : Record) :
    loopBody orbit object ≠ [] := by
  unfold loopBody
  split
  · simp
  · split
    · split
      · simp
      · split
        · simpa using decodeSong_ne_nil orbit object
        · split
          · simpa using decodePodcast_ne_nil orbit object
          · simp
    · split
      · simp
      · split
        · simpa using decodeArtist_ne_nil orbit object
        · simp

theorem parseLoop_ne_nil (orbit : Char → Char → Bool) (records : List Record) :
    ∀ content : List Content, parseLoop orbit records content ≠ [] := by
  induction records with
  | nil => intro content; simp [parseLoop]
  | cons object rest ih =>
    intro content
    obtain ⟨step, hstep⟩ := List.exists_mem_of_ne_nil _ (loopBody_ne_nil orbit object)
    cases step with
    | skip =>
      obtain ⟨out, hout⟩ := List.exists_mem_of_ne_nil _ (ih content)
      exact List.ne_nil_of_mem
        ((mem_parseLoop_cons orbit object rest content out).2 (Or.inl ⟨hstep, hout⟩))
    | append c =>
      obtain ⟨out, hout⟩ := List.exists_mem_of_ne_nil _ (ih (content ++ [c]))
      exact List.ne_nil_of_mem
        ((mem_parseLoop_cons orbit object rest content out).2 (Or.inr (Or.inl ⟨c, hstep, hout⟩)))
    | fail err =>
      exact List.ne_nil_of_mem
        ((mem_parseLoop_cons orbit object rest content ([], some err)).2
          (Or.inr (Or.inr ⟨err, hstep, rfl⟩)))

/-! ## Lemmas on the three decoders -/

theorem mem_decodeSong_ok (orbit : Char → Char → Bool) (object : Record) (song : Song)
    (h : Except.ok song ∈ decodeSong orbit object) :
    Except.ok song.WrapperType ∈ decodeField orbit object "WrapperType" ∧
      Except.ok song.Kind ∈ decodeField orbit object "Kind" := by
  simp only [decodeSong, List.mem_flatMap, List.mem_map] at h
  obtain ⟨w, hw, k, hk, heq⟩ := h
  cases w <;> cases k <;> simp at heq
  subst heq
  exact ⟨hw, hk⟩

theorem mem_decodePodcast_ok (orbit : Char → Char → Bool) (object : Record) (podcast : Podcast)
    (h : Except.ok podcast ∈ decodePodcast orbit object) :
    Except.ok podcast.WrapperType ∈ decodeField orbit object "WrapperType" ∧
      Except.ok podcast.Kind ∈ decodeField orbit object "Kind" ∧
      Except.ok podcast.FeedURL ∈ decodeField orbit object "FeedURL" := by
  simp only [decodePodcast, List.mem_flatMap, List.mem_map] at h
  obtain ⟨w, hw, k, hk, f, hf, heq⟩ := h
  cases w <;> cases k <;> cases f <;> simp at heq
  subst heq
  exact ⟨hw, hk, hf⟩

theorem mem_decodeArtist_ok (orbit : Char → Char → Bool) (object : Record) (artist : Artist)
    (h : Except.ok artist ∈ decodeArtist orbit object) :
    Except.ok artist.WrapperType ∈ decodeField orbit object "WrapperType" ∧
      Except.ok artist.ArtistName ∈ decodeField orbit object "ArtistName" := by
  simp only [decodeArtist, List.mem_flatMap, List.mem_map] at h
  obtain ⟨w, hw, a, ha, heq⟩ := h
  cases w <;> cases a <;> simp at heq
  subst heq
  exact ⟨hw, ha⟩

theorem decodeSong_stringTyped (orbit : Char → Char → Bool) (object : Record)
    (hWT : stringTyped orbit object "WrapperType") (hK : stringTyped orbit object "Kind")
    (x : Except GoError Song) (h : x ∈ decodeSong orbit object) : ∃ song, x = .ok song := by
  simp only [decodeSong, List.mem_flatMap, List.mem_map] at h
  obtain ⟨w, hw, k, hk, heq⟩ := h
  obtain ⟨wv, rfl⟩ := decodeField_stringTyped orbit object _ hWT w hw
  obtain ⟨kv, rfl⟩ := decodeField_stringTyped orbit object _ hK k hk
  exact ⟨_, heq.symm⟩

theorem decodePodcast_stringTyped (orbit : Char → Char → Bool) (object : Record)
    (hWT : stringTyped orbit object "WrapperType") (hK : stringTyped orbit object "Kind")
    (hF : stringTyped orbit object "FeedURL")
    (x : Except GoError Podcast) (h : x ∈ decodePodcast orbit object) :
    ∃ podcast, x = .ok podcast := by
  simp only [decodePodcast, List.mem_flatMap, List.mem_map] at h
  obtain ⟨w, hw, k, hk, f, hf, heq⟩ := h
  obtain ⟨wv, rfl⟩ := decodeField_stringTyped orbit object _ hWT w hw
  obtain ⟨kv, rfl⟩ := decodeField_stringTyped orbit object _ hK k hk
  obtain ⟨fv, rfl⟩ := decodeField_stringTyped orbit object _ hF f hf
  exact ⟨_, heq.symm⟩

theorem decodeArtist_stringTyped (orbit : Char → Char → Bool) (object : Record)
    (hWT : stringTyped orbit object "WrapperType") (hA : stringTyped orbit object "ArtistName")
    (x : Except GoError Artist) (h : x ∈ decodeArtist orbit object) :
    ∃ artist, x = .ok artist := by
  simp only [decodeArtist, List.mem_flatMap, List.mem_map] at h
  obtain ⟨w, hw, a, ha, heq⟩ := h
  obtain ⟨wv, rfl⟩ := decodeField_stringTyped orbit object _ hWT w hw
  obtain ⟨av, rfl⟩ := decodeField_stringTyped orbit object _ hA a ha
  exact ⟨_, heq.symm⟩

theorem loopBody_song (orbit : Char → Char → Bool) (object : Record)
    (hw : mapIndex object "wrapperType" = some (JSONValue.string "track"))
    (hk : mapIndex object "kind" = some (JSONValue.string "song")) :
    loopBody orbit object = (decodeSong orbit object).map (stepOf Content.song) := by
  unfold loopBody
  rw [hw]
  simp only [JSONValue.eqString, beq_self_eq_true, if_true]
  rw [hk]
  simp only [JSONValue.eqString, beq_self_eq_true, if_true]

theorem loopBody_podcast (orbit : Char → Char → Bool) (object : Record)
    (hw : mapIndex object "wrapperType" = some (JSONValue.string "track"))
    (hk : mapIndex object "kind" = some (JSONValue.string "podcast")) :
    loopBody orbit object = (decodePodcast orbit object).map (stepOf Content.podcast) := by
  unfold loopBody
  rw [hw]
  simp only [JSONValue.eqString, beq_self_eq_true, if_true]
  rw [hk]
  have : ("podcast" == "song") = false := by decide
  simp only [JSONValue.eqString, beq_self_eq_true, if_true, this, Bool.false_eq_true, if_false]

theorem loopBody_artist (orbit : Char → Char → Bool) (object : Record)
    (hw : mapIndex object "wrapperType" = some (JSONValue.string "artist")) :
    loopBody orbit object = (decodeArtist orbit object).map (stepOf Content.artist) := by
  unfold loopBody
  rw [hw]
  have h1 : ("artist" == "track") = false := by decide
  have h2 : ("artist" == "collection") = false := by decide
  simp only [JSONValue.eqString, beq_self_eq_true, if_true, h1, h2, Bool.false_eq_true,
    if_false]

theorem mem_parseLoop_single (orbit : Char → Char → Bool) (object : Record)
    (out : List Content × Option GoError) :
    out ∈ parseLoop orbit [object] [] ↔
      (Step.skip ∈ loopBody orbit object ∧ out = ([], none)) ∨
      (∃ c, Step.append c ∈ loopBody orbit object ∧ out = ([c], none)) ∨
      (∃ err, Step.fail err ∈ loopBody orbit object ∧ out = ([], some err)) := by
  rw [mem_parseLoop_cons]
  simp [parseLoop]

theorem forall₂_right_mem {α β : Type} {R : α → β → Prop} {l₁ : List α} {l₂ : List β}
    (h : List.Forall₂ R l₁ l₂) : ∀ b ∈ l₂, ∃ a ∈ l₁, R a b := by
  induction h with
  | nil => intro b hb; simp at hb
  | cons hab _ ih =>
    intro b hb
    rcases List.mem_cons.mp hb with rfl | hb
    · exact ⟨_, List.mem_cons_self _ _, hab⟩
    · obtain ⟨a, ha, hr⟩ := ih b hb
      exact ⟨a, List.mem_cons_of_mem _ ha, hr⟩

theorem stepOf_eq_append {α : Type} (wrap : α → Content) (x : Except GoError α) (c : Content)
    (h : Step.append c = stepOf wrap x) : ∃ v, x = .ok v ∧ c = wrap v := by
  cases x with
  | error e => simp [stepOf] at h
  | ok v =>
    simp only [stepOf, Step.append.injEq] at h
    exact ⟨v, rfl, h⟩

/-! ## The claims -/

/-- C1, counterexample: the record has `feedUrl` "a" and kind "podcast", and the Podcast that
`parseSearchResults` returns has FeedURL "b": `Decode` finds the exact key `FeedURL` before it
compares any key case-insensitively.  A record without `feedUrl` but with `FEEDURL` gets that
value, not the empty string. -/
theorem feedUrl_not_copied :
    (mapIndex feedShadowRecord "feedUrl" = some (JSONValue.string "a") ∧
      parseSearchResults asciiOrbit { ResultCount := 1, Results := [feedShadowRecord] } =
        [([Content.podcast { WrapperType := "track", Kind := "podcast", FeedURL := "b" }],
          none)]) ∧
    (mapIndex feedFoldedRecord "feedUrl" = none ∧
      parseSearchResults asciiOrbit { ResultCount := 1, Results := [feedFoldedRecord] } =
        [([Content.podcast { WrapperType := "track", Kind := "podcast", FeedURL := "b" }],
          none)]) :=
  ⟨⟨rfl, by decide⟩, rfl, by decide⟩

/-- C1, amended: for a record whose `wrapperType` is "track" and in which every key that matches
a field of the target struct (by its Go name, case-insensitively) holds a string,
`parseSearchResults` on the envelope of that record returns, in every run, no error and one
element: a Song when `kind` is "song", a Podcast when `kind` is "podcast".  The FeedURL of the
Podcast is the string under `feedUrl` when `feedUrl` is the only key that matches `FeedURL`, and
the empty string when no key matches `FeedURL`. -/
theorem parse_track_record (orbit : Char → Char → Bool) (n : Int) (object : Record)
    (hw : mapIndex object "wrapperType" = some (JSONValue.string "track"))
    (hWT : stringTyped orbit object "WrapperType") (hK : stringTyped orbit object "Kind") :
    (mapIndex object "kind" = some (JSONValue.string "song") →
      parseSearchResults orbit { ResultCount := n, Results := [object] } ≠ [] ∧
      ∀ out ∈ parseSearchResults orbit { ResultCount := n, Results := [object] },
        ∃ song, out = ([Content.song song], none)) ∧
    (mapIndex object "kind" = some (JSONValue.string "podcast") →
      stringTyped orbit object "FeedURL" →
      parseSearchResults orbit { ResultCount := n, Results := [object] } ≠ [] ∧
      ∀ out ∈ parseSearchResults orbit { ResultCount := n, Results := [object] },
        ∃ podcast, out = ([Content.podcast podcast], none) ∧
          (∀ s, soleKey orbit object "FeedURL" "feedUrl" →
            mapIndex object "feedUrl" = some (JSONValue.string s) → podcast.FeedURL = s) ∧
          (noKey orbit object "FeedURL" → podcast.FeedURL = "")) := by
  refine ⟨fun hk => ⟨parseLoop_ne_nil orbit _ _, fun out hout => ?_⟩,
    fun hk hF => ⟨parseLoop_ne_nil orbit _ _, fun out hout => ?_⟩⟩
  · have hbody := loopBody_song orbit object hw hk
    have hall : ∀ step ∈ loopBody orbit object, ∃ song, step = Step.append (Content.song song) := by
      intro step hstep
      rw [hbody, List.mem_map] at hstep
      obtain ⟨x, hx, rfl⟩ := hstep
      obtain ⟨song, rfl⟩ := decodeSong_stringTyped orbit object hWT hK x hx
      exact ⟨song, rfl⟩
    rcases (mem_parseLoop_single orbit object out).1 hout with
      ⟨hs, _⟩ | ⟨c, hc, rfl⟩ | ⟨err, he, _⟩
    · obtain ⟨song, h⟩ := hall _ hs
      cases h
    · obtain ⟨song, h⟩ := hall _ hc
      cases h
      exact ⟨song, rfl⟩
    · obtain ⟨song, h⟩ := hall _ he
      cases h
  · have hbody := loopBody_podcast orbit object hw hk
    have hall : ∀ step ∈ loopBody orbit object, ∃ podcast,
        step = Step.append (Content.podcast podcast) ∧
          Except.ok podcast ∈ decodePodcast orbit object := by
      intro step hstep
      rw [hbody, List.mem_map] at hstep
      obtain ⟨x, hx, rfl⟩ := hstep
      obtain ⟨podcast, rfl⟩ := decodePodcast_stringTyped orbit object hWT hK hF x hx
      exact ⟨podcast, rfl, hx⟩
    rcases (mem_parseLoop_single orbit object out).1 hout with
      ⟨hs, _⟩ | ⟨c, hc, rfl⟩ | ⟨err, he, _⟩
    · obtain ⟨podcast, h, _⟩ := hall _ hs
      cases h
    · obtain ⟨podcast, h, hmem⟩ := hall _ hc
      cases h
      have hfeed := (mem_decodePodcast_ok orbit object podcast hmem).2.2
      refine ⟨podcast, rfl, fun s hsole hs => ?_, fun hno => ?_⟩
      · rw [decodeField_sole_string orbit object "FeedURL" "feedUrl" s hsole hs rfl] at hfeed
        simpa using hfeed
      · rw [decodeField_noKey orbit object "FeedURL" hno] at hfeed
        simpa using hfeed
    · obtain ⟨podcast, h, _⟩ := hall _ he
      cases h

/-- C1, witness: the envelope of `Test_Lookup` yields one Podcast with the feed URL of the
test. -/
theorem parse_track_record_lookup :
    parseSearchResults asciiOrbit lookupEnvelope =
      [([Content.podcast ⟨"track", "podcast", "https://daringfireball.net/thetalkshow/rss"⟩],
        none)] ∧
    (parseSearchResults asciiOrbit lookupEnvelope ≠ [] ∧
      ∀ out ∈ parseSearchResults asciiOrbit lookupEnvelope,
        ∃ podcast, out = ([Content.podcast podcast], none) ∧
          podcast.FeedURL = "https://daringfireball.net/thetalkshow/rss") := by
  have h := (parse_track_record asciiOrbit 1 lookupRecord rfl (by decide) (by decide)).2 rfl
    (by decide)
  refine ⟨by decide, h.1, fun out hout => ?_⟩
  obtain ⟨podcast, hp, hs, _⟩ := h.2 out hout
  exact ⟨podcast, hp, hs _ (by decide) rfl⟩

/-- C2: when `parseSearchResults` returns no error, the content it returns is, element by
element and in the order of `results`, a decoding of each record that matches (track, song),
(track, podcast) or artist: the records that reach a `Decode`, with the records in between
left out, correspond one to one and in the same order to the elements of the output. -/
theorem parseSearchResults_preserves_order (orbit : Char → Char → Bool)
    (results : searchResults) (out : List Content × Option GoError)
    (hout : out ∈ parseSearchResults orbit results) (herr : out.2 = none) :
    List.Forall₂ (fun object c => Step.append c ∈ loopBody orbit object)
      (results.Results.filter matchesDiscriminator) out.1 := by
  obtain ⟨cs, hcs, hall⟩ := (parseLoop_spec orbit results.Results [] out hout).1 herr
  rw [List.nil_append] at hcs
  rw [hcs]
  exact hall

/-- C2, witness: on an envelope of an artist, a collection, a song, an unknown record and a
podcast the output is the artist, the song and the podcast, in that order. -/
theorem parseSearchResults_preserves_order_mixed :
    (mixedContent ∈ parseSearchResults asciiOrbit mixedEnvelope ∧ mixedContent.2 = none) ∧
    List.Forall₂ (fun object c => Step.append c ∈ loopBody asciiOrbit object)
      (mixedEnvelope.Results.filter matchesDiscriminator) mixedContent.1 :=
  ⟨⟨by decide, rfl⟩,
    parseSearchResults_preserves_order asciiOrbit mixedEnvelope mixedContent (by decide) rfl⟩

/-- C3: a record that has no `wrapperType`, or whose `wrapperType` is "collection", or is any
value other than "track" and "artist", or is "track" with `kind` absent or different from "song"
and "podcast", can be inserted at any position of `results` without changing what
`parseSearchResults` returns, content and error alike; on such a record the loop body does
nothing. -/
theorem dropped_record_changes_nothing (orbit : Char → Char → Bool) (n m : Int)
    (before after : List Record) (object : Record)
    (h : mapIndex object "wrapperType" = none ∨
      mapIndex object "wrapperType" = some (JSONValue.string "collection") ∨
      (∃ v, mapIndex object "wrapperType" = some v ∧
        v.eqString "track" = false ∧ v.eqString "artist" = false) ∨
      (mapIndex object "wrapperType" = some (JSONValue.string "track") ∧
        (mapIndex object "kind" = none ∨
          ∃ k, mapIndex object "kind" = some k ∧
            k.eqString "song" = false ∧ k.eqString "podcast" = false))) :
    parseSearchResults orbit { ResultCount := n, Results := before ++ object :: after } =
      parseSearchResults orbit { ResultCount := m, Results := before ++ after } ∧
    loopBody orbit object = [Step.skip] := by
  have hskip : loopBody orbit object = [Step.skip] := by
    apply loopBody_of_not_matches
    unfold matchesDiscriminator
    rcases h with h | h | ⟨v, h, h1, h2⟩ | ⟨h, h3 | ⟨k, h3, h4, h5⟩⟩
    · rw [h]
    · rw [h]; rfl
    · rw [h]
      simp only [h1, h2, Bool.false_eq_true, if_false]
      split <;> rfl
    · rw [h, h3]; rfl
    · rw [h, h3]
      have ht : (JSONValue.string "track").eqString "track" = true := rfl
      simp only [ht, if_true, h4, h5, Bool.or_self]
  refine ⟨?_, hskip⟩
  have hcons : ∀ content, parseLoop orbit (object :: after) content =
      parseLoop orbit after content := by
    intro content
    simp [parseLoop, hskip]
  have happ : ∀ (l : List Record) (content : List Content),
      parseLoop orbit (l ++ object :: after) content = parseLoop orbit (l ++ after) content := by
    intro l
    induction l with
    | nil => intro content; simpa using hcons content
    | cons x l ih =>
      intro content
      simp only [List.cons_append, parseLoop]
      congr 1
      funext step
      cases step with
      | skip => exact ih content
      | append c => exact ih (content ++ [c])
      | fail err => rfl
  exact happ before []

/-- C3, witness: a collection record that carries the keys of a song, inserted between the
song and the podcast of `mixedEnvelope`, leaves the result as it was. -/
theorem dropped_record_changes_nothing_collection :
    mapIndex collectionRecord "wrapperType" = some (JSONValue.string "collection") ∧
    (parseSearchResults asciiOrbit
        { ResultCount := 6,
          Results := mixedEnvelope.Results.take 3 ++ collectionRecord ::
            mixedEnvelope.Results.drop 3 } =
      parseSearchResults asciiOrbit
        { ResultCount := 5,
          Results := mixedEnvelope.Results.take 3 ++ mixedEnvelope.Results.drop 3 } ∧
    loopBody asciiOrbit collectionRecord = [Step.skip]) :=
  ⟨rfl, dropped_record_changes_nothing asciiOrbit 6 5 _ _ collectionRecord (Or.inr (Or.inl rfl))⟩

/-- C4: when `results` holds a record that matches a discriminator and that `Decode` cannot map
onto the target type (on that record the loop body can only end in `return nil, err`),
`parseSearchResults` returns, in every run, a non-nil error and the nil slice, whatever the
records before it decoded to. -/
theorem decode_failure_aborts (orbit : Char → Char → Bool) (results : searchResults)
    (object : Record) (hmem : object ∈ results.Results)
    (hfail : ∀ step ∈ loopBody orbit object, ∃ err, step = Step.fail err) :
    parseSearchResults orbit results ≠ [] ∧
    ∀ out ∈ parseSearchResults orbit results, out.2 ≠ none ∧ out.1 = [] := by
  refine ⟨parseLoop_ne_nil orbit _ _, ?_⟩
  have key : ∀ (records : List Record), object ∈ records → ∀ (content : List Content)
      (out : List Content × Option GoError), out ∈ parseLoop orbit records content →
      out.2 ≠ none ∧ out.1 = [] := by
    intro records
    induction records with
    | nil => intro h; simp at h
    | cons x rest ih =>
      intro hx content out hout
      rcases (mem_parseLoop_cons orbit x rest content out).1 hout with
        ⟨hs, ho⟩ | ⟨c, hc, ho⟩ | ⟨err, _, ho⟩
      · rcases List.mem_cons.mp hx with h | h
        · subst h
          obtain ⟨err, he⟩ := hfail _ hs
          cases he
        · exact ih h content out ho
      · rcases List.mem_cons.mp hx with h | h
        · subst h
          obtain ⟨err, he⟩ := hfail _ hc
          cases he
        · exact ih h _ out ho
      · subst ho
        exact ⟨by simp, rfl⟩
  exact fun out hout => key results.Results hmem [] out hout

/-- C4, witness: a track/podcast record whose `feedUrl` is a number, after a song that decodes,
makes `parseSearchResults` return the nil slice and an error. -/
theorem decode_failure_aborts_numeric_feed :
    (numericFeedRecord ∈ numericFeedEnvelope.Results ∧
      loopBody asciiOrbit numericFeedRecord =
        [Step.fail (GoError.mapstructure ["FeedURL"])]) ∧
    (parseSearchResults asciiOrbit numericFeedEnvelope ≠ [] ∧
      ∀ out ∈ parseSearchResults asciiOrbit numericFeedEnvelope, out.2 ≠ none ∧ out.1 = []) :=
  ⟨⟨by simp [numericFeedEnvelope], by decide⟩,
    decode_failure_aborts asciiOrbit numericFeedEnvelope numericFeedRecord
      (by simp [numericFeedEnvelope])
      (fun step hstep => ⟨GoError.mapstructure ["FeedURL"], by
        have hbody : loopBody asciiOrbit numericFeedRecord =
            [Step.fail (GoError.mapstructure ["FeedURL"])] := by decide
        rw [hbody] at hstep
        simpa using hstep⟩)⟩

/-- C5, counterexample: the record has `wrapperType` "artist" and `artistName` "a", and the
Artist that `parseSearchResults` returns has ArtistName "b"; with a numeric key `WrapperType`
next to the two, the record gives an error and no element. -/
theorem artistName_not_copied :
    (mapIndex artistShadowRecord "wrapperType" = some (JSONValue.string "artist") ∧
      mapIndex artistShadowRecord "artistName" = some (JSONValue.string "a") ∧
      parseSearchResults asciiOrbit { ResultCount := 1, Results := [artistShadowRecord] } =
        [([Content.artist { WrapperType := "artist", ArtistName := "b" }], none)]) ∧
    (mapIndex artistNumericTagRecord "wrapperType" = some (JSONValue.string "artist") ∧
      mapIndex artistNumericTagRecord "artistName" = some (JSONValue.string "a") ∧
      parseSearchResults asciiOrbit { ResultCount := 1, Results := [artistNumericTagRecord] } =
        [([], some (GoError.mapstructure ["WrapperType"]))]) :=
  ⟨⟨rfl, rfl, by decide⟩, rfl, rfl, by decide⟩

/-- C5, amended: for a record whose `wrapperType` is "artist" and whose `artistName` is a
string, in which `artistName` is the only key that matches `ArtistName` case-insensitively and
every key that matches `WrapperType` case-insensitively holds a string, `parseSearchResults` on
the envelope of that record returns, in every run, no error and one element, an Artist whose
ArtistName is the record's `artistName` and whose `ContentKind()` is the empty string; and
`ContentKind()` is the empty string for every Artist. -/
theorem parse_artist_record (orbit : Char → Char → Bool) (n : Int) (object : Record)
    (name : String)
    (hw : mapIndex object "wrapperType" = some (JSONValue.string "artist"))
    (ha : mapIndex object "artistName" = some (JSONValue.string name))
    (hWT : stringTyped orbit object "WrapperType")
    (hsole : soleKey orbit object "ArtistName" "artistName") :
    (parseSearchResults orbit { ResultCount := n, Results := [object] } ≠ [] ∧
      ∀ out ∈ parseSearchResults orbit { ResultCount := n, Results := [object] },
        ∃ artist, out = ([Content.artist artist], none) ∧ artist.ArtistName = name ∧
          artist.ContentKind = "" ∧
          ∀ fuel, (Content.artist artist).ContentKind fuel = some "") ∧
    (∀ artist : Artist, artist.ContentKind = "") ∧
    (∀ (artist : Artist) (fuel : Nat), (Content.artist artist).ContentKind fuel = some "") := by
  refine ⟨⟨parseLoop_ne_nil orbit _ _, fun out hout => ?_⟩, fun _ => rfl, fun _ _ => rfl⟩
  have hbody := loopBody_artist orbit object hw
  have hA : decodeField orbit object "ArtistName" = [.ok name] :=
    decodeField_sole_string orbit object "ArtistName" "artistName" name hsole ha rfl
  have hAtyped : stringTyped orbit object "ArtistName" := by
    intro k hk hfold
    rw [hsole k hk hfold]
    unfold holdsString
    rw [ha]
  have hall : ∀ step ∈ loopBody orbit object, ∃ artist,
      step = Step.append (Content.artist artist) ∧
        Except.ok artist ∈ decodeArtist orbit object := by
    intro step hstep
    rw [hbody, List.mem_map] at hstep
    obtain ⟨x, hx, rfl⟩ := hstep
    obtain ⟨artist, rfl⟩ := decodeArtist_stringTyped orbit object hWT hAtyped x hx
    exact ⟨artist, rfl, hx⟩
  rcases (mem_parseLoop_single orbit object out).1 hout with
    ⟨hs, _⟩ | ⟨c, hc, rfl⟩ | ⟨err, he, _⟩
  · obtain ⟨artist, h, _⟩ := hall _ hs
    cases h
  · obtain ⟨artist, h, hmem⟩ := hall _ hc
    cases h
    have hname := (mem_decodeArtist_ok orbit object artist hmem).2
    rw [hA] at hname
    exact ⟨artist, rfl, by simpa using hname, rfl, fun _ => rfl⟩
  · obtain ⟨artist, h, _⟩ := hall _ he
    cases h

/-- C5, witness: an artist record as the catalog sends it. -/
theorem parse_artist_record_catalog :
    parseSearchResults asciiOrbit { ResultCount := 1, Results := [artistRecord] } =
      [([Content.artist { WrapperType := "artist", ArtistName := "Jack Johnson" }], none)] ∧
    (parseSearchResults asciiOrbit { ResultCount := 1, Results := [artistRecord] } ≠ [] ∧
      ∀ out ∈ parseSearchResults asciiOrbit { ResultCount := 1, Results := [artistRecord] },
        ∃ artist, out = ([Content.artist artist], none) ∧ artist.ArtistName = "Jack Johnson" ∧
          artist.ContentKind = "" ∧
          ∀ fuel, (Content.artist artist).ContentKind fuel = some "") :=
  ⟨by decide,
    (parse_artist_record asciiOrbit 1 artistRecord "Jack Johnson" rfl rfl (by decide)
      (by decide)).1⟩

/-- C6, counterexample: a record with `wrapperType` "track", `kind` "song" and an additional
key `WrapperType` holding "artist" is decoded without error to a Song whose `ContentType()` is
"artist". -/
theorem content_type_mistagged :
    mapIndex retaggedSongRecord "wrapperType" = some (JSONValue.string "track") ∧
    parseSearchResults asciiOrbit { ResultCount := 1, Results := [retaggedSongRecord] } =
      [([Content.song { WrapperType := "artist", Kind := "song" }], none)] ∧
    (Content.song { WrapperType := "artist", Kind := "song" }).ContentType = "artist" :=
  ⟨rfl, by decide, rfl⟩

/-- C6, amended: on an envelope in which `wrapperType` is, in every record, the only key that
matches `WrapperType` case-insensitively, whenever `parseSearchResults` returns no error every
Song and every Podcast of the output has `ContentType()` "track", every Artist has
`ContentType()` "artist", and no other variant occurs. -/
theorem content_type_matches_discriminator (orbit : Char → Char → Bool)
    (results : searchResults) (out : List Content × Option GoError)
    (hout : out ∈ parseSearchResults orbit results) (herr : out.2 = none)
    (hsole : ∀ object ∈ results.Results, soleKey orbit object "WrapperType" "wrapperType") :
    ∀ c ∈ out.1,
      ((∃ song, c = Content.song song) ∨ (∃ podcast, c = Content.podcast podcast) →
        c.ContentType = "track") ∧
      ((∃ artist, c = Content.artist artist) → c.ContentType = "artist") ∧
      (∀ software, c ≠ Content.software software) := by
  intro c hc
  obtain ⟨cs, hcs, hall⟩ := (parseLoop_spec orbit results.Results [] out hout).1 herr
  rw [List.nil_append] at hcs
  rw [hcs] at hc
  obtain ⟨object, hobj, hstep⟩ := forall₂_right_mem hall c hc
  rw [List.mem_filter] at hobj
  have hs := hsole object hobj.1
  rcases mem_loopBody_cases orbit object _ hobj.2 hstep with
    ⟨hw, _, x, hx, hstep⟩ | ⟨hw, _, x, hx, hstep⟩ | ⟨hw, x, hx, hstep⟩
  · obtain ⟨song, rfl, rfl⟩ := stepOf_eq_append _ x c hstep
    have htag := (mem_decodeSong_ok orbit object song hx).1
    rw [decodeField_sole_string orbit object "WrapperType" "wrapperType" "track" hs hw rfl]
      at htag
    have htag2 : song.WrapperType = "track" := by simpa using htag
    refine ⟨fun _ => htag2, ?_, fun _ h => by cases h⟩
    rintro ⟨artist, h⟩
    cases h
  · obtain ⟨podcast, rfl, rfl⟩ := stepOf_eq_append _ x c hstep
    have htag := (mem_decodePodcast_ok orbit object podcast hx).1
    rw [decodeField_sole_string orbit object "WrapperType" "wrapperType" "track" hs hw rfl]
      at htag
    have htag2 : podcast.WrapperType = "track" := by simpa using htag
    refine ⟨fun _ => htag2, ?_, fun _ h => by cases h⟩
    rintro ⟨artist, h⟩
    cases h
  · obtain ⟨artist, rfl, rfl⟩ := stepOf_eq_append _ x c hstep
    have htag := (mem_decodeArtist_ok orbit object artist hx).1
    rw [decodeField_sole_string orbit object "WrapperType" "wrapperType" "artist" hs hw rfl]
      at htag
    have htag2 : artist.WrapperType = "artist" := by simpa using htag
    refine ⟨?_, fun _ => htag2, fun _ h => by cases h⟩
    rintro (⟨song, h⟩ | ⟨podcast, h⟩) <;> cases h

/-- C6, witness: the tags of the artist, the song and the podcast of `mixedEnvelope`. -/
theorem content_type_matches_discriminator_mixed :
    (mixedContent ∈ parseSearchResults asciiOrbit mixedEnvelope ∧ mixedContent.2 = none ∧
      ∀ object ∈ mixedEnvelope.Results,
        soleKey asciiOrbit object "WrapperType" "wrapperType") ∧
    ∀ c ∈ mixedContent.1,
      ((∃ song, c = Content.song song) ∨ (∃ podcast, c = Content.podcast podcast) →
        c.ContentType = "track") ∧
      ((∃ artist, c = Content.artist artist) → c.ContentType = "artist") ∧
      (∀ software, c ≠ Content.software software) :=
  ⟨⟨by decide, rfl, by decide⟩,
    content_type_matches_discriminator asciiOrbit mixedEnvelope mixedContent (by decide) rfl
      (by decide)⟩

/-- C7, the code at a Software, a Podcast and a Song: `ContentKind()` calls itself and returns
nothing at any depth of the call stack; on `someSong` it does not return "song". -/
theorem contentKind_never_returns :
    (∀ (fuel : Nat) (o : Software), o.ContentKind fuel = none) ∧
    (∀ (fuel : Nat) (o : Podcast), o.ContentKind fuel = none) ∧
    (∀ (fuel : Nat) (o : Song), o.ContentKind fuel = none) ∧
    (∀ fuel : Nat, someSong.ContentKind fuel ≠ some someSong.Kind) := by
  have h1 : ∀ (fuel : Nat) (o : Software), o.ContentKind fuel = none := by
    intro fuel o
    induction fuel with
    | zero => rfl
    | succ k ih => simpa [Software.ContentKind] using ih
  have h2 : ∀ (fuel : Nat) (o : Podcast), o.ContentKind fuel = none := by
    intro fuel o
    induction fuel with
    | zero => rfl
    | succ k ih => simpa [Podcast.ContentKind] using ih
  have h3 : ∀ (fuel : Nat) (o : Song), o.ContentKind fuel = none := by
    intro fuel o
    induction fuel with
    | zero => rfl
    | succ k ih => simpa [Song.ContentKind] using ih
  exact ⟨h1, h2, h3, fun fuel => by rw [h3]; simp⟩

/-- C8, counterexample: on an envelope whose `resultCount` is 0 and whose `results` holds one
artist record, `parseSearchResults` returns no error and one element. -/
theorem length_exceeds_resultCount :
    parseSearchResults asciiOrbit miscountedEnvelope =
      [([Content.artist { WrapperType := "artist", ArtistName := "Jack Johnson" }], none)] ∧
    ∃ out ∈ parseSearchResults asciiOrbit miscountedEnvelope,
      out.2 = none ∧ ¬ ((out.1.length : Int) ≤ miscountedEnvelope.ResultCount) :=
  ⟨by decide, _, List.mem_singleton.2 rfl, rfl, by decide⟩

/-- C8, amended: the content that `parseSearchResults` returns is no longer than the number of
records of `results` that match a discriminator, hence no longer than `results`; it is at most
`resultCount` whenever `resultCount` is at least the number of records of `results`. -/
theorem length_le_records (orbit : Char → Char → Bool) (results : searchResults)
    (out : List Content × Option GoError) (hout : out ∈ parseSearchResults orbit results) :
    out.1.length ≤ (results.Results.filter matchesDiscriminator).length ∧
    out.1.length ≤ results.Results.length ∧
    ((results.Results.length : Int) ≤ results.ResultCount →
      (out.1.length : Int) ≤ results.ResultCount) := by
  have hspec := parseLoop_spec orbit results.Results [] out hout
  have h1 : out.1.length ≤ (results.Results.filter matchesDiscriminator).length := by
    cases herr : out.2 with
    | none =>
      obtain ⟨cs, hcs, hall⟩ := hspec.1 herr
      rw [List.nil_append] at hcs
      rw [hcs, hall.length_eq]
    | some err =>
      rw [hspec.2 (by rw [herr]; simp)]
      simp
  have h2 : out.1.length ≤ results.Results.length :=
    le_trans h1 (List.length_filter_le _ _)
  exact ⟨h1, h2, fun h => le_trans (by exact_mod_cast h2) h⟩

/-- C8, witness: the three elements returned on the five records of `mixedEnvelope`. -/
theorem length_le_records_mixed :
    mixedContent ∈ parseSearchResults asciiOrbit mixedEnvelope ∧
    (mixedContent.1.length ≤ (mixedEnvelope.Results.filter matchesDiscriminator).length ∧
      mixedContent.1.length ≤ mixedEnvelope.Results.length ∧
      ((mixedEnvelope.Results.length : Int) ≤ mixedEnvelope.ResultCount →
        (mixedContent.1.length : Int) ≤ mixedEnvelope.ResultCount)) :=
  ⟨by decide, length_le_records asciiOrbit mixedEnvelope mixedContent (by decide)⟩

/-- C9, the code when the read of the body fails: the request was sent and the status is 200,
`ioutil.ReadAll` returns an error, and `queryServer` returns the nil slice with a nil error. -/
theorem queryServer_swallows_read_error :
    readFailureNetwork.NewRequest "https://itunes.apple.com/lookup?id=528458508" = none ∧
    (∃ res, readFailureNetwork.Do "https://itunes.apple.com/lookup?id=528458508" = .ok res ∧
      res.StatusCode = 200 ∧ res.ReadAll.2 ≠ none) ∧
    queryServer readFailureNetwork "https://itunes.apple.com/lookup?id=528458508" =
      ([], none) :=
  ⟨rfl, ⟨_, rfl, rfl, by simp⟩, rfl⟩

/-- C10: each of Country, Media, Entity, Attribute, Explicit, Limit and Language returns a
function that, applied to any options, returns a nil error, sets its own field to the argument
and leaves the seven other fields, Term included, as they were. -/
theorem option_sets_one_field (so : SearchOptions) (v : String) (b : Bool) (i : Int) :
    ((Country v so).2 = none ∧
      ((Country v so).1.Country = v ∧ (Country v so).1.Term = so.Term ∧
        (Country v so).1.Media = so.Media ∧ (Country v so).1.Entity = so.Entity ∧
        (Country v so).1.Attribute = so.Attribute ∧ (Country v so).1.Limit = so.Limit ∧
        (Country v so).1.Language = so.Language ∧ (Country v so).1.Explicit = so.Explicit)) ∧
    ((Media v so).2 = none ∧
      ((Media v so).1.Media = v ∧ (Media v so).1.Term = so.Term ∧
        (Media v so).1.Country = so.Country ∧ (Media v so).1.Entity = so.Entity ∧
        (Media v so).1.Attribute = so.Attribute ∧ (Media v so).1.Limit = so.Limit ∧
        (Media v so).1.Language = so.Language ∧ (Media v so).1.Explicit = so.Explicit)) ∧
    ((Entity v so).2 = none ∧
      ((Entity v so).1.Entity = v ∧ (Entity v so).1.Term = so.Term ∧
        (Entity v so).1.Country = so.Country ∧ (Entity v so).1.Media = so.Media ∧
        (Entity v so).1.Attribute = so.Attribute ∧ (Entity v so).1.Limit = so.Limit ∧
        (Entity v so).1.Language = so.Language ∧ (Entity v so).1.Explicit = so.Explicit)) ∧
    ((Attribute v so).2 = none ∧
      ((Attribute v so).1.Attribute = v ∧ (Attribute v so).1.Term = so.Term ∧
        (Attribute v so).1.Country = so.Country ∧ (Attribute v so).1.Media = so.Media ∧
        (Attribute v so).1.Entity = so.Entity ∧ (Attribute v so).1.Limit = so.Limit ∧
        (Attribute v so).1.Language = so.Language ∧
        (Attribute v so).1.Explicit = so.Explicit)) ∧
    ((Explicit b so).2 = none ∧
      ((Explicit b so).1.Explicit = b ∧ (Explicit b so).1.Term = so.Term ∧
        (Explicit b so).1.Country = so.Country ∧ (Explicit b so).1.Media = so.Media ∧
        (Explicit b so).1.Entity = so.Entity ∧ (Explicit b so).1.Attribute = so.Attribute ∧
        (Explicit b so).1.Limit = so.Limit ∧ (Explicit b so).1.Language = so.Language)) ∧
    ((Limit i so).2 = none ∧
      ((Limit i so).1.Limit = i ∧ (Limit i so).1.Term = so.Term ∧
        (Limit i so).1.Country = so.Country ∧ (Limit i so).1.Media = so.Media ∧
        (Limit i so).1.Entity = so.Entity ∧ (Limit i so).1.Attribute = so.Attribute ∧
        (Limit i so).1.Language = so.Language ∧ (Limit i so).1.Explicit = so.Explicit)) ∧
    ((Language v so).2 = none ∧
      ((Language v so).1.Language = v ∧ (Language v so).1.Term = so.Term ∧
        (Language v so).1.Country = so.Country ∧ (Language v so).1.Media = so.Media ∧
        (Language v so).1.Entity = so.Entity ∧ (Language v so).1.Attribute = so.Attribute ∧
        (Language v so).1.Limit = so.Limit ∧ (Language v so).1.Explicit = so.Explicit)) := by
  refine ⟨⟨rfl, ?_⟩, ⟨rfl, ?_⟩, ⟨rfl, ?_⟩, ⟨rfl, ?_⟩, ⟨rfl, ?_⟩, ⟨rfl, ?_⟩, ⟨rfl, ?_⟩⟩ <;>
  exact ⟨rfl, rfl, rfl, rfl, rfl, rfl, rfl, rfl⟩

end Itunes
